import Mathlib

set_option maxRecDepth 1000000
set_option maxHeartbeats 2000000

/-
Shallow embedding of the RaizenChallenge notebook: a container/box/cylinder
selection problem encoded as a binary program, with an independent solution
validator (`evaluate_solution`) and an alternative-solution search loop.
Decision variables are identified by their name strings; a raw solver
assignment is a function `String → Bool` (whether `varValue == 1`).
Linear expressions are formal sums, represented as lists of
(coefficient, variable-name) pairs.
-/

namespace Raizen

/-- A cylinder record: identifier, weight (g), volume (mL), density, and the
identifiers of its owning box and of the container of that box. -/
structure Cyl where
  identifier : String
  weight : ℚ
  volume : ℚ
  density : ℚ
  boxId : String
  containerId : String
deriving DecidableEq

/-- A box: its identifier and the identifiers of the cylinders appended to
its `cylinders` list, in append order. -/
structure Box where
  identifier : String
  cylinders : List String
deriving DecidableEq

/-- A container: its identifier and its boxes, in append order. -/
structure Container where
  identifier : String
  boxes : List Box
deriving DecidableEq

/-- The hierarchy seen by the model builder and the validator:
`containers.values()` and `cylinders.values()` in first-seen order. -/
structure Hierarchy where
  containers : List Container
  cylinders : List Cyl
deriving DecidableEq

/-- Rational addition, spelled through `mkRat` so that it is kernel-computable
(`Rat.add` is sealed); `qadd_eq_add` below identifies it with `+`. -/
def qadd (a b : ℚ) : ℚ := mkRat (a.num * b.den + b.num * a.den) (a.den * b.den)

/-- The notebook constant TOTAL_CONTAINERS = 35. -/
def TOTAL_CONTAINERS : Nat := 35

/-- The notebook constant TOTAL_VOLUME = 5163.69, written as an exact
fraction; `TOTAL_VOLUME_eq` below identifies it with the decimal literal. -/
def TOTAL_VOLUME : ℚ := mkRat 516369 100

/-- The notebook constant TOTAL_WEIGHT = 18844. -/
def TOTAL_WEIGHT : ℚ := mkRat 18844 1

/-- The notebook constant MAX_DIFFERENT_SOLUTIONS = 100. -/
def MAX_DIFFERENT_SOLUTIONS : Nat := 100

/-- The Python string split on the pipe separator, on the underlying
character list. -/
def splitPipe : List Char → List (List Char)
  | [] => [[]]
  | c :: cs =>
    if c = '|' then [] :: splitPipe cs
    else
      match splitPipe cs with
      | [] => [[c]]
      | p :: ps => (c :: p) :: ps

/-- The split of a variable name on the pipe separator, as a list of
strings. -/
def splitName (s : String) : List String := (splitPipe s.data).map String.mk

/-- Dictionary lookup `containers[k]` (first entry with the key). -/
def containersFind (h : Hierarchy) (k : String) : Option Container :=
  h.containers.find? (fun c => c.identifier == k)

/-- Dictionary lookup `cylinders[k]` (first entry with the key). -/
def cylindersFind (h : Hierarchy) (k : String) : Option Cyl :=
  h.cylinders.find? (fun c => c.identifier == k)

/-- Python `set.add`: a list-as-set insert that keeps the list duplicate-free. -/
def insertSet (l : List String) (x : String) : List String :=
  if x ∈ l then l else l ++ [x]

/-- A formal linear expression: a sum of coefficient · variable terms. -/
abbrev LinExp := List (ℚ × String)

/-- The four syntactic constraint shapes the notebook emits:
`expr == k`, `expr1 <= expr2`, `expr1 >= expr2`, `expr <= k`. -/
inductive Constraint where
  | eqK : LinExp → ℚ → Constraint
  | leE : LinExp → LinExp → Constraint
  | geE : LinExp → LinExp → Constraint
  | leK : LinExp → ℚ → Constraint
deriving DecidableEq

/-- Value of a formal linear expression under an assignment of rationals. -/
def evalLin (val : String → ℚ) (e : LinExp) : ℚ :=
  (e.map (fun t => t.1 * val t.2)).sum

/-- Satisfaction of one constraint by an assignment. -/
def satisfies (val : String → ℚ) : Constraint → Prop
  | .eqK e k => evalLin val e = k
  | .leE a b => evalLin val a ≤ evalLin val b
  | .geE a b => evalLin val a ≥ evalLin val b
  | .leK e k => evalLin val e ≤ k

namespace Item

/-- The formal sum of the decision variables with the given names, one unit
term per item (the source method sum_variables works on item objects). -/
def sum_variables (ids : List String) : LinExp :=
  ids.map (fun i => ((1 : ℚ), i))

end Item

/-- The Python bankers rounding of a rational to the nearest integer (ties go
to the even neighbour), computed on the numerator and denominator: `f = ⌊y⌋`
and `rem2 = 2·den·(y − f)`, so `y − f < 1/2` iff `rem2 < den`. -/
def roundHalfEven (y : ℚ) : ℤ :=
  let f := y.num.fdiv (y.den : ℤ)
  let rem2 := 2 * (y.num - f * (y.den : ℤ))
  if rem2 < (y.den : ℤ) then f
  else if (y.den : ℤ) < rem2 then f + 1
  else if f % 2 = 0 then f else f + 1

/-- The Python call round(x, 2) with DIGITS_PRECISION = 2: bankers rounding
of `x · 100`, divided by 100 again. -/
def pythonRound2 (x : ℚ) : ℚ := mkRat (roundHalfEven (mkRat (x.num * 100) x.den)) 100

/-- The accumulator state of the variable loop of `evaluate_solution`. -/
structure ScanState where
  used_containers : List String
  sum_volumes : ℚ
  sum_weights : ℚ
  used_boxes : List String
  chosen_cylinders_ids : List String
  chosen_cylinders : List Cyl
deriving DecidableEq

/-- The initial loop state of `evaluate_solution`. -/
def initScan : ScanState := ⟨[], 0, 0, [], [], []⟩

/-- One iteration of the loop of `evaluate_solution` over the problem
variables. An `Except.error` models a Python KeyError or IndexError; an
`Except.ok none` models an early return of None. -/
def processVar (h : Hierarchy) (val : String → Bool) (st : ScanState) (name : String) :
    Except String (Option ScanState) :=
  match st with
  | ⟨used_containers, sum_volumes, sum_weights, used_boxes, chosen_ids, chosen⟩ =>
    if val name then
      let split_variable_name := splitName name
      if split_variable_name.length = 1 then
        match containersFind h name with
        | none => .error name
        | some cont =>
          if cont.boxes.any (fun b => b.cylinders.any (fun c => val c)) then
            .ok (some ⟨insertSet used_containers name, sum_volumes, sum_weights,
                       used_boxes, chosen_ids, chosen⟩)
          else .ok none
      else
        match cylindersFind h name with
        | none => .error name
        | some cylinder =>
          match split_variable_name with
          | p0 :: p1 :: _ =>
            let container_box_identifier := p0 ++ "|" ++ p1
            if val cylinder.containerId then
              if container_box_identifier ∉ used_boxes then
                .ok (some ⟨used_containers,
                           qadd sum_volumes cylinder.volume, qadd sum_weights cylinder.weight,
                           used_boxes ++ [container_box_identifier],
                           chosen_ids ++ [cylinder.identifier], chosen ++ [cylinder]⟩)
              else .ok none
            else .ok none
          | _ => .error name
    else .ok (some st)

/-- The full variable loop of `evaluate_solution`. -/
def scanVariables (h : Hierarchy) (val : String → Bool) :
    List String → ScanState → Except String (Option ScanState)
  | [], st => .ok (some st)
  | v :: vs, st =>
    match processVar h val st v with
    | .error e => .error e
    | .ok none => .ok none
    | .ok (some st2) => scanVariables h val vs st2

/-- The comma-joined string of the chosen cylinder identifiers. -/
def solutionString (st : ScanState) : String :=
  String.intercalate "," st.chosen_cylinders_ids

/-- The final numeric gate of `evaluate_solution`: distinct selected
containers, rounded volume sum and rounded weight sum all meet the targets. -/
def numericOk (st : ScanState) : Prop :=
  st.used_containers.length = TOTAL_CONTAINERS ∧
  pythonRound2 st.sum_volumes = TOTAL_VOLUME ∧
  pythonRound2 st.sum_weights = TOTAL_WEIGHT

instance (st : ScanState) : Decidable (numericOk st) := by
  unfold numericOk; infer_instance

/-- The validator: scans the assignment over `vars` (the order of the
problem variables), applies the duplicate-solution check against the
run-long set `all_optimal`, then the numeric gate. Returns the accepted
(ids, cylinder objects) pair or `none`, together with the updated set. -/
def evaluate_solution (h : Hierarchy) (val : String → Bool) (vars : List String)
    (all_optimal : List String) :
    Except String (Option (List String × List Cyl) × List String) :=
  match scanVariables h val vars initScan with
  | .error e => .error e
  | .ok none => .ok (none, all_optimal)
  | .ok (some st) =>
    let s := solutionString st
    if s ∈ all_optimal then .ok (none, all_optimal)
    else
      let all2 := all_optimal ++ [s]
      if numericOk st then
        .ok (some (st.chosen_cylinders_ids, st.chosen_cylinders), all2)
      else .ok (none, all2)

/-- Well-formedness of the variable names relative to the hierarchy: every
selected name resolves in the dictionary its shape designates. This holds for
the notebook model, where every variable is a container or a cylinder. -/
def wfNames (h : Hierarchy) (val : String → Bool) (vars : List String) : Prop :=
  ∀ v ∈ vars, val v = true →
    ((splitName v).length = 1 → (containersFind h v).isSome = true) ∧
    ((splitName v).length ≠ 1 → (cylindersFind h v).isSome = true)

instance (h : Hierarchy) (val : String → Bool) (vars : List String) :
    Decidable (wfNames h val vars) := by
  unfold wfNames; infer_instance

/-- The exclusion constraint appended after an accepted solution:
`Item.sum_variables(chosen cylinders) <= len(chosen cylinders) - 1`. -/
def exclusionConstraint (objs : List Cyl) : Constraint :=
  Constraint.leK (Item.sum_variables (objs.map (·.identifier)))
    (((objs.length : ℤ) - 1 : ℤ) : ℚ)

/-- The alternative-solution search loop. `fuel` is `maxSol + 1 - counter`,
so the guard `counter <= MAX_DIFFERENT_SOLUTIONS` holds exactly when
`fuel > 0`; `status` is the latest solver status (`none` = infeasible); the
oracle models `problem.solve` on the current constraint list. Returns the
written solutions as (1-based counter, cylinder ids) pairs and the final
constraint list. -/
def searchLoop (oracle : List Constraint → Option (String → Bool)) (h : Hierarchy)
    (vars : List String) :
    Nat → Option (String → Bool) → Nat → List Constraint → List String →
    Except String (List (Nat × List String) × List Constraint)
  | 0, _, _, cs, _ => .ok ([], cs)
  | _ + 1, none, _, cs, _ => .ok ([], cs)
  | fuel + 1, some val, counter, cs, seen =>
    match evaluate_solution h val vars seen with
    | .error e => .error e
    | .ok (none, _) => .ok ([], cs)
    | .ok (some (ids, objs), seen2) =>
      let cs2 := cs ++ [exclusionConstraint objs]
      match searchLoop oracle h vars fuel (oracle cs2) (counter + 1) cs2 seen2 with
      | .error e => .error e
      | .ok (rest, csF) => .ok ((counter + 1, ids) :: rest, csF)

/-- The whole search run: counter starts at 0 and the loop guard is
`counter <= maxSol`, i.e. the fuel is `maxSol + 1`. -/
def runSearch (oracle : List Constraint → Option (String → Bool)) (h : Hierarchy)
    (vars : List String) (maxSol : Nat) (status0 : Option (String → Bool))
    (cs0 : List Constraint) (seen0 : List String) :
    Except String (List (Nat × List String) × List Constraint) :=
  searchLoop oracle h vars (maxSol + 1) status0 0 cs0 seen0

/-- One input row of the construction loop. -/
structure Row where
  container : String
  box : String
  cylinder : String
  weight : ℚ
  volume : ℚ
  density : ℚ
deriving DecidableEq

/-- The derived box identifier: the container identifier, a pipe, and the
box label. -/
def boxIdOf (row : Row) : String := row.container ++ "|" ++ row.box

/-- The derived cylinder identifier: the box identifier, a pipe, and the
cylinder label. -/
def cylIdOf (row : Row) : String := boxIdOf row ++ "|" ++ row.cylinder

/-- Python dict assignment `d[k] = v`: replace the value in place if the key
is present, else append the new entry. -/
def dictInsert (d : List (String × Cyl)) (k : String) (v : Cyl) : List (String × Cyl) :=
  if (d.map (·.1)).contains k then d.map (fun p => if p.1 == k then (k, v) else p)
  else d ++ [(k, v)]

/-- Appending a cylinder object to the cylinder list of the box with the
given identifier. -/
def appendAt (d : List (String × List Cyl)) (k : String) (v : Cyl) :
    List (String × List Cyl) :=
  d.map (fun p => if p.1 == k then (p.1, p.2 ++ [v]) else p)

/-- The state of the construction loop: the `containers` dict (only its key
order is observable here), the `boxes` dict mapping each box identifier to its
container identifier, the per-box object lists of cylinders, and the
`cylinders` dict. All in first-seen order. -/
structure BuildState where
  containers : List String
  boxes : List (String × String)
  boxCylinders : List (String × List Cyl)
  cylinders : List (String × Cyl)
deriving DecidableEq

/-- One iteration of the construction loop: reuse or create the container and
the box, then always construct a new cylinder attached to the resolved box. -/
def processRow (st : BuildState) (row : Row) : BuildState :=
  let container_id := row.container
  let box_id := boxIdOf row
  let cylinder_id := cylIdOf row
  let st1 := if st.containers.contains container_id then st
             else { st with containers := st.containers ++ [container_id] }
  let st2 := if (st1.boxes.map (·.1)).contains box_id then st1
             else { st1 with boxes := st1.boxes ++ [(box_id, container_id)],
                             boxCylinders := st1.boxCylinders ++ [(box_id, [])] }
  let owner := ((st2.boxes.find? (fun p => p.1 == box_id)).map (·.2)).getD container_id
  let cyl : Cyl := { identifier := cylinder_id, weight := row.weight, volume := row.volume,
                     density := row.density, boxId := box_id, containerId := owner }
  { st2 with boxCylinders := appendAt st2.boxCylinders box_id cyl,
             cylinders := dictInsert st2.cylinders cylinder_id cyl }

/-- The whole construction loop over the data-frame rows. -/
def buildAll (rows : List Row) : BuildState :=
  rows.foldl processRow ⟨[], [], [], []⟩

/-- First occurrence of each string, in first-seen order, starting from an
already-seen accumulator. -/
def firstSeenFrom (acc : List String) (l : List String) : List String :=
  l.foldl (fun a x => if a.contains x then a else a ++ [x]) acc

/-- First occurrence of each string, in first-seen order. -/
def firstSeen (l : List String) : List String := firstSeenFrom [] l

/-- Total number of cylinder objects attached across all boxes. -/
def totalCyl (st : BuildState) : Nat := (st.boxCylinders.map (·.2.length)).sum

/-- Key invariant of the construction state: the box-object list and the
boxes dict range over the same keys, without duplicates. -/
def keysOk (st : BuildState) : Prop :=
  st.boxCylinders.map (·.1) = st.boxes.map (·.1) ∧ (st.boxes.map (·.1)).Nodup

instance (st : BuildState) : Decidable (keysOk st) := by
  unfold keysOk; infer_instance

/-- Lookup of the cylinder objects attached to a box. -/
def lookupBC (st : BuildState) (k : String) : Option (List Cyl) :=
  (st.boxCylinders.find? (fun p => p.1 == k)).map (·.2)

/-- The name-derived box key, the first two name components joined by a
pipe, used by the box-exclusivity check (the default arm is never reached for a
name the validator accepts as a cylinder). -/
def boxKey (name : String) : String :=
  match splitName name with
  | p0 :: p1 :: _ => p0 ++ "|" ++ p1
  | _ => name

/-- Violation fixture: a single selected cylinder whose owning container is
not selected. -/
def vioH : Hierarchy := ⟨[], [⟨"V|b|1", 1, 1, 0, "V|b", "V"⟩]⟩

/-- Violation fixture: the assignment selecting only the cylinder. -/
def vioVal : String → Bool := fun v => v == "V|b|1"

/-- Scenario fixture: containers "1".."34" with one single-cylinder box each,
and container "35" whose box holds five interchangeable cylinders, so five
distinct valid solutions exist. -/
def scContainers : List Container :=
  ((List.range 34).map (fun i =>
    { identifier := toString (i + 1),
      boxes := [{ identifier := toString (i + 1) ++ "|b",
                  cylinders := [toString (i + 1) ++ "|b|1"] }] }))
  ++ [{ identifier := "35",
        boxes := [{ identifier := "35|b",
                    cylinders := (List.range 5).map (fun j => "35|b|" ++ toString (j + 1)) }] }]

/-- Scenario fixture: the 34 forced cylinders. 34 · 148.67 + 108.91 = 5163.69
and 34 · 538 + 552 = 18844, so every solution meets the numeric targets. -/
def scBaseCyls : List Cyl := (List.range 34).map (fun i =>
  { identifier := toString (i + 1) ++ "|b|1", weight := 538, volume := mkRat 14867 100, density := 0,
    boxId := toString (i + 1) ++ "|b", containerId := toString (i + 1) })

/-- Scenario fixture: the j-th interchangeable cylinder of container "35". -/
def scSpecial (j : Nat) : Cyl :=
  { identifier := "35|b|" ++ toString (j + 1), weight := 552, volume := mkRat 10891 100, density := 0,
    boxId := "35|b", containerId := "35" }

/-- Scenario fixture: all cylinders. -/
def scCylinders : List Cyl := scBaseCyls ++ (List.range 5).map scSpecial

/-- Scenario fixture: the hierarchy. -/
def scH : Hierarchy := ⟨scContainers, scCylinders⟩

/-- Scenario fixture: the variable order of `problem.variables()`. -/
def scVars : List String :=
  scContainers.map (·.identifier) ++ scCylinders.map (·.identifier)

/-- Scenario fixture: the assignment selecting all containers, the 34 forced
cylinders and the (j+1)-th cylinder of container "35". -/
def scAsgn (j : Nat) : String → Bool := fun v =>
  (scContainers.map (·.identifier)).contains v
  || (scBaseCyls.map (·.identifier)).contains v
  || v == "35|b|" ++ toString (j + 1)

/-- Scenario fixture: the solver oracle, keyed by how many exclusion
constraints have been appended so far; always feasible. -/
def scOracle (cs : List Constraint) : Option (String → Bool) := some (scAsgn cs.length)

/-- Scenario fixture: the ordered chosen-cylinder identifiers of solution j. -/
def scIdsAt (j : Nat) : List String :=
  scBaseCyls.map (·.identifier) ++ ["35|b|" ++ toString (j + 1)]

/-- Scenario fixture: the chosen cylinder objects of solution j. -/
def scObjsAt (j : Nat) : List Cyl := scBaseCyls ++ [scSpecial j]

/-- Scenario fixture: the scan state after a full accepted scan of solution j. -/
def scSt (j : Nat) : ScanState :=
  ⟨scContainers.map (·.identifier), TOTAL_VOLUME, TOTAL_WEIGHT,
   scBaseCyls.map (·.boxId) ++ ["35|b"], scIdsAt j, scObjsAt j⟩

/-- Scenario fixture: the three solutions a capped run writes. -/
def scExpectedWritten : List (Nat × List String) :=
  [(1, scIdsAt 0), (2, scIdsAt 1), (3, scIdsAt 2)]

/-- Scenario fixture: the three exclusion constraints a capped run appends. -/
def scExpectedCs : List Constraint :=
  [exclusionConstraint (scObjsAt 0), exclusionConstraint (scObjsAt 1),
   exclusionConstraint (scObjsAt 2)]

/-- Construction fixture: four input rows, the last re-using container "A"
and box "A|LB_1". -/
def c9Rows : List Row :=
  [⟨"A", "LB_1", "1", 5, 1, 6⟩, ⟨"A", "LB_2", "2", 3, 2, 4⟩,
   ⟨"B", "LB_1", "1", 5, 1, 7⟩, ⟨"A", "LB_1", "3", 2, 9, 8⟩]

/-- Construction fixture: a state already holding container "A" and its box. -/
def c9St : BuildState :=
  ⟨["A"], [("A|LB_1", "A")], [("A|LB_1", [])], []⟩

/-- Construction fixture: a row that re-encounters container "A" and box
"A|LB_1". -/
def c9Row : Row := ⟨"A", "LB_1", "9", 1, 2, 3⟩

deriving instance DecidableEq for Except

/-- The kernel-computable addition agrees with rational addition. -/
theorem qadd_eq_add (a b : ℚ) : qadd a b = a + b := (Rat.add_def' a b).symm

/-- The volume target is the decimal literal of the notebook. -/
theorem TOTAL_VOLUME_eq : TOTAL_VOLUME = 5163.69 := by
  norm_num [TOTAL_VOLUME, Rat.mkRat_eq_div]

/-- The weight target is the integer literal of the notebook. -/
theorem TOTAL_WEIGHT_eq : TOTAL_WEIGHT = 18844 := by
  norm_num [TOTAL_WEIGHT, Rat.mkRat_eq_div]

/-- Splitting never yields an empty list of chunks. -/
theorem splitPipe_ne_nil (l : List Char) : splitPipe l ≠ [] := by
  induction l with
  | nil => simp [splitPipe]
  | cons c cs ih =>
    simp only [splitPipe]
    split
    · simp
    · cases hcs : splitPipe cs <;> simp

/-- A split name has at least one component. -/
theorem splitName_ne_nil (s : String) : splitName s ≠ [] := by
  simp [splitName, splitPipe_ne_nil]

/-- A variable that is not selected leaves the scan state unchanged. -/
theorem processVar_not_selected (h : Hierarchy) (val : String → Bool) (st : ScanState)
    (name : String) (hv : val name = false) : processVar h val st name = .ok (some st) := by
  cases st; simp [processVar, hv]

/-- A selected cylinder survives the scan only if its owning container is
also selected. -/
theorem processVar_cyl_upward {h : Hierarchy} {val : String → Bool} {st st' : ScanState}
    {name : String} {cyl : Cyl}
    (hp : processVar h val st name = .ok (some st'))
    (hv : val name = true) (hlen : (splitName name).length ≠ 1)
    (hfind : cylindersFind h name = some cyl) : val cyl.containerId = true := by
  cases st
  simp only [processVar, hv, if_true, hfind, if_neg hlen] at hp
  repeat' split at hp
  all_goals simp only [Except.ok.injEq, Option.some.injEq, reduceCtorEq] at hp
  all_goals try subst hp
  all_goals simp_all

/-- A selected cylinder survives the scan only if its name-derived box key is
fresh, and then the key is appended to `used_boxes`. -/
theorem processVar_cyl_boxes {h : Hierarchy} {val : String → Bool} {st st' : ScanState}
    {name : String} {cyl : Cyl}
    (hp : processVar h val st name = .ok (some st'))
    (hv : val name = true) (hlen : (splitName name).length ≠ 1)
    (hfind : cylindersFind h name = some cyl) :
    boxKey name ∉ st.used_boxes ∧ st'.used_boxes = st.used_boxes ++ [boxKey name] := by
  cases st
  simp only [processVar, hv, if_true, hfind, if_neg hlen] at hp
  repeat' split at hp
  all_goals simp only [Except.ok.injEq, Option.some.injEq, reduceCtorEq] at hp
  all_goals try subst hp
  all_goals simp_all [boxKey]

/-- A surviving scan step never removes a recorded box key. -/
theorem processVar_boxes_mono {h : Hierarchy} {val : String → Bool} {st st' : ScanState}
    {name : String}
    (hp : processVar h val st name = .ok (some st')) :
    ∀ k ∈ st.used_boxes, k ∈ st'.used_boxes := by
  cases st
  simp only [processVar] at hp
  repeat' split at hp
  all_goals simp only [Except.ok.injEq, Option.some.injEq, reduceCtorEq] at hp
  all_goals try subst hp
  all_goals simp_all

/-- A selected container survives the scan only if one of its boxes holds a
selected cylinder. -/
theorem processVar_cont_downward {h : Hierarchy} {val : String → Bool} {st st' : ScanState}
    {name : String} {cont : Container}
    (hp : processVar h val st name = .ok (some st'))
    (hv : val name = true) (hlen : (splitName name).length = 1)
    (hfind : containersFind h name = some cont) :
    cont.boxes.any (fun b => b.cylinders.any (fun c => val c)) = true := by
  cases st
  simp only [processVar, hv, if_true, hfind, if_pos hlen] at hp
  repeat' split at hp
  all_goals simp only [Except.ok.injEq, Option.some.injEq, reduceCtorEq] at hp
  all_goals try subst hp
  all_goals simp_all

/-- A surviving scan step keeps every chosen cylinder with its container
selected. -/
theorem processVar_chosen_upward {h : Hierarchy} {val : String → Bool} {st st' : ScanState}
    {name : String}
    (hp : processVar h val st name = .ok (some st'))
    (hinv : ∀ c ∈ st.chosen_cylinders, val c.containerId = true) :
    ∀ c ∈ st'.chosen_cylinders, val c.containerId = true := by
  cases st
  simp only [processVar] at hp
  repeat' split at hp
  all_goals simp only [Except.ok.injEq, Option.some.injEq, reduceCtorEq] at hp
  all_goals try subst hp
  all_goals try simp_all
  all_goals rintro c (hc | rfl)
  all_goals simp_all

/-- A surviving scan step preserves the identifier projection of the chosen
cylinder lists. -/
theorem processVar_chosen_ids {h : Hierarchy} {val : String → Bool} {st st' : ScanState}
    {name : String}
    (hp : processVar h val st name = .ok (some st'))
    (hinv : st.chosen_cylinders.map (·.identifier) = st.chosen_cylinders_ids) :
    st'.chosen_cylinders.map (·.identifier) = st'.chosen_cylinders_ids := by
  cases st
  simp only [processVar] at hp
  repeat' split at hp
  all_goals simp only [Except.ok.injEq, Option.some.injEq, reduceCtorEq] at hp
  all_goals try subst hp
  all_goals simp_all

/-- A scan step on a well-formed name never raises. -/
theorem processVar_no_error {h : Hierarchy} {val : String → Bool} (st : ScanState)
    {name : String}
    (hwf1 : val name = true → (splitName name).length = 1 →
      (containersFind h name).isSome = true)
    (hwf2 : val name = true → (splitName name).length ≠ 1 →
      (cylindersFind h name).isSome = true) :
    ∃ r, processVar h val st name = .ok r := by
  obtain ⟨uc, sv, sw, ub, ci, cc⟩ := st
  cases hv : val name with
  | false => exact ⟨_, processVar_not_selected _ _ _ _ hv⟩
  | true =>
    simp only [processVar, hv, if_true]
    by_cases hlen : (splitName name).length = 1
    · rw [if_pos hlen]
      rcases Option.isSome_iff_exists.mp (hwf1 hv hlen) with ⟨cont, hc⟩
      simp only [hc]
      by_cases hany : cont.boxes.any (fun b => b.cylinders.any (fun c => val c)) = true
      · rw [if_pos hany]; exact ⟨_, rfl⟩
      · rw [if_neg hany]; exact ⟨_, rfl⟩
    · rw [if_neg hlen]
      rcases Option.isSome_iff_exists.mp (hwf2 hv hlen) with ⟨cyl, hc⟩
      simp only [hc]
      rcases hsn : splitName name with _ | ⟨p0, t⟩
      · exact absurd hsn (splitName_ne_nil name)
      · rcases t with _ | ⟨p1, rest⟩
        · exact absurd (by simp [hsn]) hlen
        · simp only [hsn]
          by_cases hvc : val cyl.containerId = true
          · rw [if_pos hvc]
            by_cases hbm : (p0 ++ "|" ++ p1) ∉ ub
            · rw [if_pos hbm]; exact ⟨_, rfl⟩
            · rw [if_neg hbm]; exact ⟨_, rfl⟩
          · rw [if_neg hvc]; exact ⟨_, rfl⟩

/-- The scan of a concatenation runs the first part, then the second from the
intermediate state. -/
theorem scanVariables_append (h : Hierarchy) (val : String → Bool) (xs ys : List String)
    (st : ScanState) :
    scanVariables h val (xs ++ ys) st =
      match scanVariables h val xs st with
      | .error e => .error e
      | .ok none => .ok none
      | .ok (some st2) => scanVariables h val ys st2 := by
  induction xs generalizing st with
  | nil => simp [scanVariables]
  | cons v vs ih =>
    simp only [List.cons_append, scanVariables]
    cases processVar h val st v with
    | error e => rfl
    | ok o =>
      cases o with
      | none => rfl
      | some st2 => exact ih st2

/-- Inversion of a successful scan of a cons. -/
theorem scanVariables_cons_inv {h : Hierarchy} {val : String → Bool} {a : String}
    {l : List String} {st0 st : ScanState}
    (hs : scanVariables h val (a :: l) st0 = .ok (some st)) :
    ∃ st1, processVar h val st0 a = .ok (some st1) ∧
      scanVariables h val l st1 = .ok (some st) := by
  simp only [scanVariables] at hs
  cases hpv : processVar h val st0 a with
  | error e => simp [hpv] at hs
  | ok o =>
    cases o with
    | none => simp [hpv] at hs
    | some st1 =>
      rw [hpv] at hs
      exact ⟨st1, rfl, hs⟩

/-- Inversion of a successful scan of a concatenation. -/
theorem scanVariables_append_inv {h : Hierarchy} {val : String → Bool} {xs ys : List String}
    {st0 st : ScanState}
    (hs : scanVariables h val (xs ++ ys) st0 = .ok (some st)) :
    ∃ stm, scanVariables h val xs st0 = .ok (some stm) ∧
      scanVariables h val ys stm = .ok (some st) := by
  rw [scanVariables_append] at hs
  cases hsx : scanVariables h val xs st0 with
  | error e => simp [hsx] at hs
  | ok o =>
    cases o with
    | none => simp [hsx] at hs
    | some stm =>
      rw [hsx] at hs
      exact ⟨stm, rfl, hs⟩

/-- A successful scan certifies upward consistency for every selected
cylinder variable it processed. -/
theorem scanVariables_upward {h : Hierarchy} {val : String → Bool} :
    ∀ {vs : List String} {st0 st : ScanState},
    scanVariables h val vs st0 = .ok (some st) →
    ∀ v ∈ vs, val v = true → (splitName v).length ≠ 1 →
      ∀ cyl, cylindersFind h v = some cyl → val cyl.containerId = true := by
  intro vs
  induction vs with
  | nil => intro st0 st _ v hv; simp at hv
  | cons a l ih =>
    intro st0 st hs v hv hval hlen cyl hfind
    obtain ⟨st1, hpv, hrest⟩ := scanVariables_cons_inv hs
    rcases List.mem_cons.mp hv with rfl | hvl
    · exact processVar_cyl_upward hpv hval hlen hfind
    · exact ih hrest v hvl hval hlen cyl hfind

/-- A successful scan certifies downward consistency for every selected
container variable it processed. -/
theorem scanVariables_downward {h : Hierarchy} {val : String → Bool} :
    ∀ {vs : List String} {st0 st : ScanState},
    scanVariables h val vs st0 = .ok (some st) →
    ∀ v ∈ vs, val v = true → (splitName v).length = 1 →
      ∀ cont, containersFind h v = some cont →
        cont.boxes.any (fun b => b.cylinders.any (fun c => val c)) = true := by
  intro vs
  induction vs with
  | nil => intro st0 st _ v hv; simp at hv
  | cons a l ih =>
    intro st0 st hs v hv hval hlen cont hfind
    obtain ⟨st1, hpv, hrest⟩ := scanVariables_cons_inv hs
    rcases List.mem_cons.mp hv with rfl | hvl
    · exact processVar_cont_downward hpv hval hlen hfind
    · exact ih hrest v hvl hval hlen cont hfind

/-- A successful scan never drops a recorded box key. -/
theorem scanVariables_boxes_mono {h : Hierarchy} {val : String → Bool} :
    ∀ {vs : List String} {st0 st : ScanState},
    scanVariables h val vs st0 = .ok (some st) →
    ∀ k ∈ st0.used_boxes, k ∈ st.used_boxes := by
  intro vs
  induction vs with
  | nil => intro st0 st hs k hk; simp only [scanVariables, Except.ok.injEq,
      Option.some.injEq] at hs; exact hs ▸ hk
  | cons a l ih =>
    intro st0 st hs k hk
    obtain ⟨st1, hpv, hrest⟩ := scanVariables_cons_inv hs
    exact ih hrest k (processVar_boxes_mono hpv k hk)

/-- Every selected cylinder variable a successful scan processed had a box
key fresh with respect to the initial state. -/
theorem scanVariables_boxes_fresh {h : Hierarchy} {val : String → Bool} :
    ∀ {vs : List String} {st0 st : ScanState},
    scanVariables h val vs st0 = .ok (some st) →
    ∀ v ∈ vs, val v = true → (splitName v).length ≠ 1 →
      ∀ cyl, cylindersFind h v = some cyl → boxKey v ∉ st0.used_boxes := by
  intro vs
  induction vs with
  | nil => intro st0 st _ v hv; simp at hv
  | cons a l ih =>
    intro st0 st hs v hv hval hlen cyl hfind
    obtain ⟨st1, hpv, hrest⟩ := scanVariables_cons_inv hs
    rcases List.mem_cons.mp hv with rfl | hvl
    · exact (processVar_cyl_boxes hpv hval hlen hfind).1
    · intro hmem
      exact ih hrest v hvl hval hlen cyl hfind (processVar_boxes_mono hpv _ hmem)

/-- Every selected cylinder variable a successful scan processed has its box
key recorded in the final state. -/
theorem scanVariables_boxes_mem {h : Hierarchy} {val : String → Bool} :
    ∀ {vs : List String} {st0 st : ScanState},
    scanVariables h val vs st0 = .ok (some st) →
    ∀ v ∈ vs, val v = true → (splitName v).length ≠ 1 →
      ∀ cyl, cylindersFind h v = some cyl → boxKey v ∈ st.used_boxes := by
  intro vs
  induction vs with
  | nil => intro st0 st _ v hv; simp at hv
  | cons a l ih =>
    intro st0 st hs v hv hval hlen cyl hfind
    obtain ⟨st1, hpv, hrest⟩ := scanVariables_cons_inv hs
    rcases List.mem_cons.mp hv with rfl | hvl
    · have hb := (processVar_cyl_boxes hpv hval hlen hfind).2
      exact scanVariables_boxes_mono hrest _ (by simp [hb])
    · exact ih hrest v hvl hval hlen cyl hfind

/-- Two distinct members of a list can be ordered: one occurs strictly after
the other. -/
theorem mem_mem_split {α : Type} {x y : α} {l : List α} (hx : x ∈ l) (hy : y ∈ l)
    (hne : x ≠ y) :
    ∃ s t, (l = s ++ x :: t ∧ y ∈ t) ∨ (l = s ++ y :: t ∧ x ∈ t) := by
  induction l with
  | nil => simp at hx
  | cons a l ih =>
    by_cases hax : a = x
    · subst hax
      have hyl : y ∈ l := by
        rcases List.mem_cons.mp hy with hh | hh
        · exact absurd hh.symm hne
        · exact hh
      exact ⟨[], l, Or.inl ⟨rfl, hyl⟩⟩
    · by_cases hay : a = y
      · subst hay
        have hxl : x ∈ l := by
          rcases List.mem_cons.mp hx with hh | hh
          · exact absurd hh.symm hax
          · exact hh
        exact ⟨[], l, Or.inr ⟨rfl, hxl⟩⟩
      · have hx2 : x ∈ l := by
          rcases List.mem_cons.mp hx with hh | hh
          · exact absurd hh.symm hax
          · exact hh
        have hy2 : y ∈ l := by
          rcases List.mem_cons.mp hy with hh | hh
          · exact absurd hh.symm hay
          · exact hh
        obtain ⟨s, t, hc | hc⟩ := ih hx2 hy2
        · exact ⟨a :: s, t, Or.inl ⟨by rw [hc.1]; rfl, hc.2⟩⟩
        · exact ⟨a :: s, t, Or.inr ⟨by rw [hc.1]; rfl, hc.2⟩⟩

/-- Two selected cylinder variables a successful scan processed never share a
name-derived box key unless they are the same name. -/
theorem scanVariables_exclusive {h : Hierarchy} {val : String → Bool}
    {vs : List String} {st0 st : ScanState}
    (hs : scanVariables h val vs st0 = .ok (some st))
    {v1 v2 : String} (h1 : v1 ∈ vs) (h2 : v2 ∈ vs)
    {c1 c2 : Cyl}
    (hval1 : val v1 = true) (hlen1 : (splitName v1).length ≠ 1)
    (hfind1 : cylindersFind h v1 = some c1)
    (hval2 : val v2 = true) (hlen2 : (splitName v2).length ≠ 1)
    (hfind2 : cylindersFind h v2 = some c2)
    (hkey : boxKey v1 = boxKey v2) : v1 = v2 := by
  by_contra hne
  obtain ⟨s, t, hc | hc⟩ := mem_mem_split h1 h2 hne
  · obtain ⟨hl, hm⟩ := hc
    subst hl
    obtain ⟨stm, hsx, hsy⟩ := scanVariables_append_inv hs
    obtain ⟨st1, hpv, hrest⟩ := scanVariables_cons_inv hsy
    have hb := (processVar_cyl_boxes hpv hval1 hlen1 hfind1).2
    have hfresh := scanVariables_boxes_fresh hrest v2 hm hval2 hlen2 c2 hfind2
    rw [← hkey] at hfresh
    exact hfresh (by simp [hb])
  · obtain ⟨hl, hm⟩ := hc
    subst hl
    obtain ⟨stm, hsx, hsy⟩ := scanVariables_append_inv hs
    obtain ⟨st1, hpv, hrest⟩ := scanVariables_cons_inv hsy
    have hb := (processVar_cyl_boxes hpv hval2 hlen2 hfind2).2
    have hfresh := scanVariables_boxes_fresh hrest v1 hm hval1 hlen1 c1 hfind1
    rw [hkey] at hfresh
    exact hfresh (by simp [hb])

/-- A scan over well-formed names never raises. -/
theorem scanVariables_no_error {h : Hierarchy} {val : String → Bool} :
    ∀ {vs : List String} (st0 : ScanState),
    (∀ v ∈ vs, val v = true →
      ((splitName v).length = 1 → (containersFind h v).isSome = true) ∧
      ((splitName v).length ≠ 1 → (cylindersFind h v).isSome = true)) →
    ∃ r, scanVariables h val vs st0 = .ok r := by
  intro vs
  induction vs with
  | nil => intro st0 _; exact ⟨some st0, rfl⟩
  | cons a l ih =>
    intro st0 hwf
    obtain ⟨r, hr⟩ := processVar_no_error st0
      (fun hv hl => (hwf a (by simp) hv).1 hl)
      (fun hv hl => (hwf a (by simp) hv).2 hl)
    cases r with
    | none => exact ⟨none, by simp [scanVariables, hr]⟩
    | some st1 =>
      obtain ⟨r2, hr2⟩ := ih st1 (fun v hv => hwf v (by simp [hv]))
      exact ⟨r2, by simp [scanVariables, hr, hr2]⟩

/-- A successful scan keeps every chosen cylinder with its container
selected. -/
theorem scanVariables_chosen_upward {h : Hierarchy} {val : String → Bool} :
    ∀ {vs : List String} {st0 st : ScanState},
    scanVariables h val vs st0 = .ok (some st) →
    (∀ c ∈ st0.chosen_cylinders, val c.containerId = true) →
    ∀ c ∈ st.chosen_cylinders, val c.containerId = true := by
  intro vs
  induction vs with
  | nil =>
    intro st0 st hs hinv
    simp only [scanVariables, Except.ok.injEq, Option.some.injEq] at hs
    exact hs ▸ hinv
  | cons a l ih =>
    intro st0 st hs hinv
    obtain ⟨st1, hpv, hrest⟩ := scanVariables_cons_inv hs
    exact ih hrest (processVar_chosen_upward hpv hinv)

/-- A successful scan keeps the chosen identifier list as the identifier
projection of the chosen objects. -/
theorem scanVariables_chosen_ids {h : Hierarchy} {val : String → Bool} :
    ∀ {vs : List String} {st0 st : ScanState},
    scanVariables h val vs st0 = .ok (some st) →
    st0.chosen_cylinders.map (·.identifier) = st0.chosen_cylinders_ids →
    st.chosen_cylinders.map (·.identifier) = st.chosen_cylinders_ids := by
  intro vs
  induction vs with
  | nil =>
    intro st0 st hs hinv
    simp only [scanVariables, Except.ok.injEq, Option.some.injEq] at hs
    exact hs ▸ hinv
  | cons a l ih =>
    intro st0 st hs hinv
    obtain ⟨st1, hpv, hrest⟩ := scanVariables_cons_inv hs
    exact ih hrest (processVar_chosen_ids hpv hinv)

/-- A scan rejection makes the validator return "no solution" with the
duplicate set untouched. -/
theorem evaluate_scan_none {h : Hierarchy} {val : String → Bool} {vars : List String}
    {seen : List String}
    (hs : scanVariables h val vars initScan = .ok none) :
    evaluate_solution h val vars seen = .ok (none, seen) := by
  simp [evaluate_solution, hs]

/-- A candidate whose solution string is already recorded is rejected with
the duplicate set untouched. -/
theorem evaluate_dup {h : Hierarchy} {val : String → Bool} {vars seen : List String}
    {st : ScanState}
    (hs : scanVariables h val vars initScan = .ok (some st))
    (hdup : solutionString st ∈ seen) :
    evaluate_solution h val vars seen = .ok (none, seen) := by
  simp [evaluate_solution, hs, hdup]

/-- A fresh candidate failing the numeric gate is rejected, but only after
its solution string has been recorded. -/
theorem evaluate_numfail {h : Hierarchy} {val : String → Bool} {vars seen : List String}
    {st : ScanState}
    (hs : scanVariables h val vars initScan = .ok (some st))
    (hdup : solutionString st ∉ seen) (hnum : ¬ numericOk st) :
    evaluate_solution h val vars seen = .ok (none, seen ++ [solutionString st]) := by
  simp [evaluate_solution, hs, hdup, hnum]

/-- A fresh candidate passing the numeric gate is accepted and recorded. -/
theorem evaluate_accept {h : Hierarchy} {val : String → Bool} {vars seen : List String}
    {st : ScanState}
    (hs : scanVariables h val vars initScan = .ok (some st))
    (hdup : solutionString st ∉ seen) (hnum : numericOk st) :
    evaluate_solution h val vars seen =
      .ok (some (st.chosen_cylinders_ids, st.chosen_cylinders),
           seen ++ [solutionString st]) := by
  simp [evaluate_solution, hs, hdup, hnum]

/-- Inversion of an accepted validation. -/
theorem evaluate_accept_inv {h : Hierarchy} {val : String → Bool} {vars seen : List String}
    {ids : List String} {objs : List Cyl} {s2 : List String}
    (he : evaluate_solution h val vars seen = .ok (some (ids, objs), s2)) :
    ∃ st, scanVariables h val vars initScan = .ok (some st) ∧
      ids = st.chosen_cylinders_ids ∧ objs = st.chosen_cylinders ∧
      solutionString st ∉ seen ∧ s2 = seen ++ [solutionString st] ∧ numericOk st := by
  cases hs : scanVariables h val vars initScan with
  | error e => simp [evaluate_solution, hs] at he
  | ok o =>
    cases o with
    | none => simp [evaluate_solution, hs] at he
    | some st =>
      by_cases hdup : solutionString st ∈ seen
      · rw [evaluate_dup hs hdup] at he; simp at he
      · by_cases hnum : numericOk st
        · rw [evaluate_accept hs hdup hnum] at he
          simp only [Except.ok.injEq, Prod.mk.injEq, Option.some.injEq] at he
          exact ⟨st, rfl, he.1.1.symm, he.1.2.symm, hdup, he.2.symm, hnum⟩
        · rw [evaluate_numfail hs hdup hnum] at he; simp at he

/-- The validator never raises on well-formed variable names. -/
theorem evaluate_no_error {h : Hierarchy} {val : String → Bool} {vars seen : List String}
    (hwf : wfNames h val vars) :
    ∃ p, evaluate_solution h val vars seen = .ok p := by
  obtain ⟨r, hr⟩ := scanVariables_no_error initScan hwf
  cases r with
  | none => exact ⟨(none, seen), evaluate_scan_none hr⟩
  | some st =>
    by_cases hdup : solutionString st ∈ seen
    · exact ⟨(none, seen), evaluate_dup hr hdup⟩
    · by_cases hnum : numericOk st
      · exact ⟨_, evaluate_accept hr hdup hnum⟩
      · exact ⟨_, evaluate_numfail hr hdup hnum⟩

/-- The validator only ever grows the duplicate-solution set. -/
theorem evaluate_seen_mono {h : Hierarchy} {val : String → Bool} {vars seen : List String}
    {p : Option (List String × List Cyl) × List String}
    (he : evaluate_solution h val vars seen = .ok p) : ∀ s ∈ seen, s ∈ p.2 := by
  cases hs : scanVariables h val vars initScan with
  | error e => simp [evaluate_solution, hs] at he
  | ok o =>
    cases o with
    | none =>
      rw [evaluate_scan_none hs] at he
      simp only [Except.ok.injEq] at he
      subst he; exact fun s hsm => hsm
    | some st =>
      by_cases hdup : solutionString st ∈ seen
      · rw [evaluate_dup hs hdup] at he
        simp only [Except.ok.injEq] at he
        subst he; exact fun s hsm => hsm
      · by_cases hnum : numericOk st
        · rw [evaluate_accept hs hdup hnum] at he
          simp only [Except.ok.injEq] at he
          subst he; exact fun s hsm => by simp [hsm]
        · rw [evaluate_numfail hs hdup hnum] at he
          simp only [Except.ok.injEq] at he
          subst he; exact fun s hsm => by simp [hsm]

/-- The search loop accepts at most `fuel` solutions. -/
theorem searchLoop_length {oracle : List Constraint → Option (String → Bool)}
    {h : Hierarchy} {vars : List String} :
    ∀ {fuel : Nat} {status : Option (String → Bool)} {counter : Nat}
      {cs : List Constraint} {seen : List String} {w : List (Nat × List String)}
      {csF : List Constraint},
    searchLoop oracle h vars fuel status counter cs seen = .ok (w, csF) →
    w.length ≤ fuel := by
  intro fuel
  induction fuel with
  | zero =>
    intro status counter cs seen w csF hsl
    simp only [searchLoop, Except.ok.injEq, Prod.mk.injEq] at hsl
    simp [← hsl.1]
  | succ n ih =>
    intro status counter cs seen w csF hsl
    cases status with
    | none =>
      simp only [searchLoop, Except.ok.injEq, Prod.mk.injEq] at hsl
      simp [← hsl.1]
    | some val =>
      simp only [searchLoop] at hsl
      cases hev : evaluate_solution h val vars seen with
      | error e => simp only [hev, reduceCtorEq] at hsl
      | ok p =>
        obtain ⟨o, seen2⟩ := p
        simp only [hev] at hsl
        cases o with
        | none =>
          simp only [Except.ok.injEq, Prod.mk.injEq] at hsl
          simp [← hsl.1]
        | some x =>
          obtain ⟨ids, objs⟩ := x
          cases hrec : searchLoop oracle h vars n
              (oracle (cs ++ [exclusionConstraint objs])) (counter + 1)
              (cs ++ [exclusionConstraint objs]) seen2 with
          | error e => simp only [hrec, reduceCtorEq] at hsl
          | ok pr =>
            simp only [hrec] at hsl
            simp only [Except.ok.injEq, Prod.mk.injEq] at hsl
            rw [← hsl.1]
            simpa using Nat.succ_le_succ (ih hrec)

/-- The final constraint list of a search run is the initial one plus exactly
one exclusion constraint per accepted solution, built from the ordered
cylinder identifiers of that solution. -/
theorem searchLoop_constraints {oracle : List Constraint → Option (String → Bool)}
    {h : Hierarchy} {vars : List String} :
    ∀ {fuel : Nat} {status : Option (String → Bool)} {counter : Nat}
      {cs : List Constraint} {seen : List String} {w : List (Nat × List String)}
      {csF : List Constraint},
    searchLoop oracle h vars fuel status counter cs seen = .ok (w, csF) →
    csF = cs ++ w.map (fun p => Constraint.leK (p.2.map (fun i => ((1 : ℚ), i)))
        (((p.2.length : ℤ) - 1 : ℤ) : ℚ)) := by
  intro fuel
  induction fuel with
  | zero =>
    intro status counter cs seen w csF hsl
    simp only [searchLoop, Except.ok.injEq, Prod.mk.injEq] at hsl
    simp [← hsl.1, ← hsl.2]
  | succ n ih =>
    intro status counter cs seen w csF hsl
    cases status with
    | none =>
      simp only [searchLoop, Except.ok.injEq, Prod.mk.injEq] at hsl
      simp [← hsl.1, ← hsl.2]
    | some val =>
      simp only [searchLoop] at hsl
      cases hev : evaluate_solution h val vars seen with
      | error e => simp only [hev, reduceCtorEq] at hsl
      | ok p =>
        obtain ⟨o, seen2⟩ := p
        simp only [hev] at hsl
        cases o with
        | none =>
          simp only [Except.ok.injEq, Prod.mk.injEq] at hsl
          simp [← hsl.1, ← hsl.2]
        | some x =>
          obtain ⟨ids, objs⟩ := x
          cases hrec : searchLoop oracle h vars n
              (oracle (cs ++ [exclusionConstraint objs])) (counter + 1)
              (cs ++ [exclusionConstraint objs]) seen2 with
          | error e => simp only [hrec, reduceCtorEq] at hsl
          | ok pr =>
            simp only [hrec] at hsl
            simp only [Except.ok.injEq, Prod.mk.injEq] at hsl
            obtain ⟨st, hscan, hids, hobjs, _, _, _⟩ := evaluate_accept_inv hev
            have hmap : objs.map (·.identifier) = ids := by
              rw [hids, hobjs]
              exact scanVariables_chosen_ids hscan rfl
            have hlen : objs.length = ids.length := by
              rw [← hmap, List.length_map]
            have hexcl : exclusionConstraint objs =
                Constraint.leK (ids.map (fun i => ((1 : ℚ), i)))
                  (((ids.length : ℤ) - 1 : ℤ) : ℚ) := by
              simp [exclusionConstraint, Item.sum_variables, hmap, hlen]
            rw [← hsl.1, ← hsl.2, ih hrec, hexcl]
            simp

/-- The accepted solutions of a search run have pairwise distinct ordered
identifier strings, all fresh with respect to the initial duplicate set. -/
theorem searchLoop_strings {oracle : List Constraint → Option (String → Bool)}
    {h : Hierarchy} {vars : List String} :
    ∀ {fuel : Nat} {status : Option (String → Bool)} {counter : Nat}
      {cs : List Constraint} {seen : List String} {w : List (Nat × List String)}
      {csF : List Constraint},
    searchLoop oracle h vars fuel status counter cs seen = .ok (w, csF) →
    (w.map (fun p => String.intercalate "," p.2)).Nodup ∧
      ∀ s ∈ w.map (fun p => String.intercalate "," p.2), s ∉ seen := by
  intro fuel
  induction fuel with
  | zero =>
    intro status counter cs seen w csF hsl
    simp only [searchLoop, Except.ok.injEq, Prod.mk.injEq] at hsl
    simp [← hsl.1]
  | succ n ih =>
    intro status counter cs seen w csF hsl
    cases status with
    | none =>
      simp only [searchLoop, Except.ok.injEq, Prod.mk.injEq] at hsl
      simp [← hsl.1]
    | some val =>
      simp only [searchLoop] at hsl
      cases hev : evaluate_solution h val vars seen with
      | error e => simp only [hev, reduceCtorEq] at hsl
      | ok p =>
        obtain ⟨o, seen2⟩ := p
        simp only [hev] at hsl
        cases o with
        | none =>
          simp only [Except.ok.injEq, Prod.mk.injEq] at hsl
          simp [← hsl.1]
        | some x =>
          obtain ⟨ids, objs⟩ := x
          cases hrec : searchLoop oracle h vars n
              (oracle (cs ++ [exclusionConstraint objs])) (counter + 1)
              (cs ++ [exclusionConstraint objs]) seen2 with
          | error e => simp only [hrec, reduceCtorEq] at hsl
          | ok pr =>
            simp only [hrec] at hsl
            simp only [Except.ok.injEq, Prod.mk.injEq] at hsl
            obtain ⟨st, hscan, hids, hobjs, hdup, hseen2, hnum⟩ := evaluate_accept_inv hev
            obtain ⟨hnd, hfresh⟩ := ih hrec
            have hsol : String.intercalate "," ids = solutionString st := by
              rw [hids]; rfl
            rw [← hsl.1]
            constructor
            · simp only [List.map_cons, List.nodup_cons]
              refine ⟨fun hmem => ?_, hnd⟩
              have := hfresh _ hmem
              rw [hseen2, hsol] at this
              simp at this
            · intro s hsm
              simp only [List.map_cons, List.mem_cons] at hsm
              rcases hsm with rfl | hsm
              · rw [hsol]; exact hdup
              · intro hcontra
                exact hfresh s hsm (by rw [hseen2]; simp [hcontra])

/-- Bool membership test unfolded to propositional membership. -/
theorem contains_iff (l : List String) (a : String) : l.contains a = true ↔ a ∈ l := by
  simp [List.contains, List.elem_iff]

/-- Appending a cylinder to a box keeps the key list. -/
theorem appendAt_keys (k : String) (v : Cyl) (d : List (String × List Cyl)) :
    (appendAt d k v).map (·.1) = d.map (·.1) := by
  induction d with
  | nil => rfl
  | cons p t ih => by_cases hp : p.1 == k <;> simp_all [appendAt]

/-- Appending to an absent key changes nothing. -/
theorem appendAt_nomatch (k : String) (v : Cyl) :
    ∀ d : List (String × List Cyl), k ∉ d.map (·.1) → appendAt d k v = d := by
  intro d
  induction d with
  | nil => intro _; rfl
  | cons p t ih =>
    intro hk
    simp only [List.map_cons, List.mem_cons] at hk
    push_neg at hk
    have hp : (p.1 == k) = false := beq_eq_false_iff_ne.mpr (Ne.symm hk.1)
    have hstep : appendAt (p :: t) k v =
        (if p.1 == k then (p.1, p.2 ++ [v]) else p) :: appendAt t k v := rfl
    rw [hstep, hp, if_neg Bool.false_ne_true, ih hk.2]

/-- No entry carries an absent key. -/
theorem find_key_nomem (k : String) :
    ∀ d : List (String × List Cyl), k ∉ d.map (·.1) →
    d.find? (fun p => p.1 == k) = none := by
  intro d
  induction d with
  | nil => intro _; rfl
  | cons p t ih =>
    intro hk
    simp only [List.map_cons, List.mem_cons] at hk
    push_neg at hk
    have hp : (p.1 == k) = false := beq_eq_false_iff_ne.mpr (Ne.symm hk.1)
    rw [List.find?_cons_of_neg _ (by simp [hp]), ih hk.2]

/-- Appending to a present key grows exactly that entry, and lookup sees the
grown list. -/
theorem appendAt_find_mem (k : String) (v : Cyl) :
    ∀ d : List (String × List Cyl), k ∈ d.map (·.1) →
    ∃ l, d.find? (fun p => p.1 == k) = some (k, l) ∧
      (appendAt d k v).find? (fun p => p.1 == k) = some (k, l ++ [v]) := by
  intro d
  induction d with
  | nil => intro hk; simp at hk
  | cons p t ih =>
    obtain ⟨p1, p2⟩ := p
    intro hk
    have hstep : appendAt ((p1, p2) :: t) k v =
        (if (p1, p2).1 == k then ((p1, p2).1, (p1, p2).2 ++ [v]) else (p1, p2)) ::
          appendAt t k v := rfl
    by_cases hp : p1 = k
    · subst hp
      refine ⟨p2, ?_, ?_⟩
      · rw [List.find?_cons_of_pos _ (by simp)]
      · rw [hstep, if_pos (by simp)]
        rw [List.find?_cons_of_pos _ (by simp)]
    · have hpb : ((p1, p2).1 == k) = false := beq_eq_false_iff_ne.mpr hp
      have hk2 : k ∈ t.map (·.1) := by
        simp only [List.map_cons, List.mem_cons] at hk
        rcases hk with hh | hh
        · exact absurd hh.symm hp
        · exact hh
      obtain ⟨l, hf, ha⟩ := ih hk2
      refine ⟨l, ?_, ?_⟩
      · rw [List.find?_cons_of_neg _ (by simp [hpb]), hf]
      · rw [hstep, hpb, if_neg Bool.false_ne_true,
          List.find?_cons_of_neg _ (by simp [hpb]), ha]

/-- Appending to a present key with duplicate-free keys adds exactly one to
the total count. -/
theorem appendAt_total (k : String) (v : Cyl) :
    ∀ d : List (String × List Cyl), (d.map (·.1)).Nodup → k ∈ d.map (·.1) →
    ((appendAt d k v).map (·.2.length)).sum = (d.map (·.2.length)).sum + 1 := by
  intro d
  induction d with
  | nil => intro _ hk; simp at hk
  | cons p t ih =>
    intro hnd hk
    simp only [List.map_cons, List.nodup_cons] at hnd
    have hstep : appendAt (p :: t) k v =
        (if p.1 == k then (p.1, p.2 ++ [v]) else p) :: appendAt t k v := rfl
    by_cases hp : p.1 = k
    · have hkt : k ∉ t.map (·.1) := hp ▸ hnd.1
      rw [hstep, if_pos (by simp [hp]), appendAt_nomatch k v t hkt]
      simp only [List.map_cons, List.sum_cons, List.length_append, List.length_cons,
        List.length_nil]
      omega
    · have hpb : (p.1 == k) = false := beq_eq_false_iff_ne.mpr hp
      have hk2 : k ∈ t.map (·.1) := by
        simp only [List.map_cons, List.mem_cons] at hk
        rcases hk with hh | hh
        · exact absurd hh.symm hp
        · exact hh
      rw [hstep, hpb, if_neg Bool.false_ne_true]
      simp only [List.map_cons, List.sum_cons, ih hnd.2 hk2]
      omega

/-- In-place dictionary value replacement keeps the key list. -/
theorem replace_keys (k : String) (v : Cyl) :
    ∀ d : List (String × Cyl),
    (d.map (fun p => if p.1 == k then (k, v) else p)).map (·.1) = d.map (·.1) := by
  intro d
  induction d with
  | nil => rfl
  | cons p t ih =>
    simp only [List.map_cons, ih]
    congr 1
    by_cases hp : (p.1 == k) = true
    · have hpk : p.1 = k := by simpa using hp
      rw [if_pos hp]
      exact hpk.symm
    · rw [if_neg hp]

/-- Dictionary insertion updates keys first-seen style. -/
theorem dictInsert_keys (k : String) (v : Cyl) (d : List (String × Cyl)) :
    (dictInsert d k v).map (·.1) =
      if (d.map (·.1)).contains k then d.map (·.1) else d.map (·.1) ++ [k] := by
  simp only [dictInsert]
  by_cases hc : (d.map (·.1)).contains k = true
  · rw [if_pos hc, if_pos hc]
    exact replace_keys k v d
  · rw [if_neg hc, if_neg hc]
    simp

/-- The container dictionary evolves first-seen style. -/
theorem processRow_containers (st : BuildState) (row : Row) :
    (processRow st row).containers =
      if st.containers.contains row.container then st.containers
      else st.containers ++ [row.container] := by
  simp only [processRow]
  by_cases hc : row.container ∈ st.containers <;>
    by_cases hb : boxIdOf row ∈ st.boxes.map (·.1) <;>
      simp [hc, hb, contains_iff]

/-- The box dictionary evolves first-seen style. -/
theorem processRow_boxes (st : BuildState) (row : Row) :
    (processRow st row).boxes =
      if (st.boxes.map (·.1)).contains (boxIdOf row) then st.boxes
      else st.boxes ++ [(boxIdOf row, row.container)] := by
  simp only [processRow]
  by_cases hc : row.container ∈ st.containers <;>
    by_cases hb : boxIdOf row ∈ st.boxes.map (·.1) <;>
      simp [hc, hb, contains_iff]

/-- The per-box object lists keep keys aligned with the box dictionary. -/
theorem processRow_boxCylKeys (st : BuildState) (row : Row) :
    (processRow st row).boxCylinders.map (·.1) =
      if (st.boxes.map (·.1)).contains (boxIdOf row) then st.boxCylinders.map (·.1)
      else st.boxCylinders.map (·.1) ++ [boxIdOf row] := by
  simp only [processRow]
  by_cases hc : row.container ∈ st.containers <;>
    by_cases hb : boxIdOf row ∈ st.boxes.map (·.1) <;>
      simp [hc, hb, contains_iff, appendAt_keys]

/-- The cylinder dictionary keys evolve first-seen style. -/
theorem processRow_cylKeys (st : BuildState) (row : Row) :
    (processRow st row).cylinders.map (·.1) =
      if (st.cylinders.map (·.1)).contains (cylIdOf row) then st.cylinders.map (·.1)
      else st.cylinders.map (·.1) ++ [cylIdOf row] := by
  simp only [processRow]
  by_cases hc : row.container ∈ st.containers <;>
    by_cases hb : boxIdOf row ∈ st.boxes.map (·.1) <;>
      simp [hc, hb, contains_iff, dictInsert_keys]

/-- The construction loop realises first-seen iteration order for all three
dictionaries, from any starting state. -/
theorem buildAll_orders_aux :
    ∀ (rows : List Row) (st : BuildState),
    (rows.foldl processRow st).containers =
        firstSeenFrom st.containers (rows.map (·.container)) ∧
      (rows.foldl processRow st).boxes.map (·.1) =
        firstSeenFrom (st.boxes.map (·.1)) (rows.map boxIdOf) ∧
      (rows.foldl processRow st).cylinders.map (·.1) =
        firstSeenFrom (st.cylinders.map (·.1)) (rows.map cylIdOf) := by
  intro rows
  induction rows with
  | nil => intro st; simp [firstSeenFrom]
  | cons r t ih =>
    intro st
    obtain ⟨h1, h2, h3⟩ := ih (processRow st r)
    refine ⟨?_, ?_, ?_⟩
    · rw [List.foldl_cons, h1, processRow_containers]
      simp [firstSeenFrom, List.foldl_cons, List.map_cons]
    · rw [List.foldl_cons, h2, processRow_boxes]
      by_cases hb : boxIdOf r ∈ st.boxes.map (·.1) <;>
        simp [hb, contains_iff, firstSeenFrom, List.foldl_cons, List.map_cons]
    · rw [List.foldl_cons, h3, processRow_cylKeys]
      by_cases hcy : cylIdOf r ∈ st.cylinders.map (·.1) <;>
        simp [hcy, contains_iff, firstSeenFrom, List.foldl_cons, List.map_cons]

/-- C1: `evaluate_solution` accepts a raw 0/1 assignment only if, for the
scanned state, the number of distinct selected containers equals
`TOTAL_CONTAINERS` (35) and the volume and weight sums, rounded to 2 decimal
digits, equal `TOTAL_VOLUME` (5163.69) and `TOTAL_WEIGHT` (18844); a scanned
candidate failing any of the three equalities is rejected. -/
theorem claim_numeric_gate :
    (∀ (h : Hierarchy) (val : String → Bool) (vars seen : List String)
       (ids : List String) (objs : List Cyl) (s2 : List String) (st : ScanState),
       scanVariables h val vars initScan = .ok (some st) →
       evaluate_solution h val vars seen = .ok (some (ids, objs), s2) →
       st.used_containers.length = TOTAL_CONTAINERS ∧
         pythonRound2 st.sum_volumes = TOTAL_VOLUME ∧
         pythonRound2 st.sum_weights = TOTAL_WEIGHT) ∧
    (∀ (h : Hierarchy) (val : String → Bool) (vars seen : List String) (st : ScanState),
       scanVariables h val vars initScan = .ok (some st) → ¬ numericOk st →
       evaluate_solution h val vars seen =
         .ok (none, if solutionString st ∈ seen then seen
                    else seen ++ [solutionString st])) := by
  constructor
  · intro h val vars seen ids objs s2 st hscan hacc
    obtain ⟨st2, hscan2, _, _, _, _, hnum⟩ := evaluate_accept_inv hacc
    rw [hscan] at hscan2
    simp only [Except.ok.injEq, Option.some.injEq] at hscan2
    rw [hscan2]
    exact hnum
  · intro h val vars seen st hscan hnum
    by_cases hdup : solutionString st ∈ seen
    · rw [if_pos hdup]; exact evaluate_dup hscan hdup
    · rw [if_neg hdup]; exact evaluate_numfail hscan hdup hnum

/-- C1 witness: the scenario assignment is accepted and its scan state meets
the three numeric targets; the empty assignment is scanned but rejected. -/
theorem claim_numeric_gate_witness :
    ((scSt 0).used_containers.length = TOTAL_CONTAINERS ∧
       pythonRound2 (scSt 0).sum_volumes = TOTAL_VOLUME ∧
       pythonRound2 (scSt 0).sum_weights = TOTAL_WEIGHT) ∧
    evaluate_solution scH (scAsgn 0) [] [] =
      .ok (none, if solutionString initScan ∈ ([] : List String) then []
                 else [] ++ [solutionString initScan]) := by
  constructor
  · exact claim_numeric_gate.1 scH (scAsgn 0) scVars [] (scIdsAt 0) (scObjsAt 0)
      [String.intercalate "," (scIdsAt 0)] (scSt 0) (by decide) (by decide)
  · exact claim_numeric_gate.2 scH (scAsgn 0) [] [] initScan (by decide) (by decide)

/-- C2: an accepted solution satisfies upward consistency (every chosen
cylinder has its container selected), box exclusivity (no two selected
cylinder variables share a box key) and downward consistency (every selected container
has a selected cylinder in one of its boxes); a well-formed assignment
violating any of the three is rejected with "no solution". -/
theorem claim_structural_gate :
    (∀ (h : Hierarchy) (val : String → Bool) (vars seen : List String)
       (ids : List String) (objs : List Cyl) (s2 : List String),
       evaluate_solution h val vars seen = .ok (some (ids, objs), s2) →
       (∀ c ∈ objs, val c.containerId = true) ∧
       (∀ v1 ∈ vars, ∀ v2 ∈ vars, ∀ c1 c2 : Cyl,
          val v1 = true → (splitName v1).length ≠ 1 → cylindersFind h v1 = some c1 →
          val v2 = true → (splitName v2).length ≠ 1 → cylindersFind h v2 = some c2 →
          boxKey v1 = boxKey v2 → v1 = v2) ∧
       (∀ v ∈ vars, val v = true → (splitName v).length = 1 →
          ∀ cont, containersFind h v = some cont →
            ∃ b ∈ cont.boxes, ∃ c ∈ b.cylinders, val c = true)) ∧
    (∀ (h : Hierarchy) (val : String → Bool) (vars seen : List String),
       wfNames h val vars →
       ((∃ v ∈ vars, ∃ cyl : Cyl, val v = true ∧ (splitName v).length ≠ 1 ∧
           cylindersFind h v = some cyl ∧ val cyl.containerId = false) ∨
        (∃ v1 ∈ vars, ∃ v2 ∈ vars, ∃ c1 c2 : Cyl, v1 ≠ v2 ∧
           val v1 = true ∧ (splitName v1).length ≠ 1 ∧ cylindersFind h v1 = some c1 ∧
           val v2 = true ∧ (splitName v2).length ≠ 1 ∧ cylindersFind h v2 = some c2 ∧
           boxKey v1 = boxKey v2) ∨
        (∃ v ∈ vars, ∃ cont : Container, val v = true ∧ (splitName v).length = 1 ∧
           containersFind h v = some cont ∧
           cont.boxes.any (fun b => b.cylinders.any (fun c => val c)) = false)) →
       evaluate_solution h val vars seen = .ok (none, seen)) := by
  constructor
  · intro h val vars seen ids objs s2 he
    obtain ⟨st, hscan, _, hobjs, _, _, _⟩ := evaluate_accept_inv he
    refine ⟨?_, ?_, ?_⟩
    · rw [hobjs]
      exact scanVariables_chosen_upward hscan (by intro c hc; simp [initScan] at hc)
    · intro v1 h1 v2 h2 c1 c2 hval1 hlen1 hfind1 hval2 hlen2 hfind2 hkey
      exact scanVariables_exclusive hscan h1 h2 hval1 hlen1 hfind1 hval2 hlen2
        hfind2 hkey
    · intro v hv hval hlen cont hfind
      have hany := scanVariables_downward hscan v hv hval hlen cont hfind
      simpa using hany
  · intro h val vars seen hwf hvio
    obtain ⟨r, hr⟩ := scanVariables_no_error initScan hwf
    cases r with
    | none => exact evaluate_scan_none hr
    | some st =>
      exfalso
      rcases hvio with ⟨v, hv, cyl, hval, hlen, hfind, hvc⟩ |
        ⟨v1, h1, v2, h2, c1, c2, hne, hval1, hlen1, hfind1, hval2, hlen2, hfind2, hkey⟩ |
        ⟨v, hv, cont, hval, hlen, hfind, hany⟩
      · have hup := scanVariables_upward hr v hv hval hlen cyl hfind
        simp [hup] at hvc
      · exact hne (scanVariables_exclusive hr h1 h2 hval1 hlen1 hfind1 hval2 hlen2
          hfind2 hkey)
      · have hdn := scanVariables_downward hr v hv hval hlen cont hfind
        simp [hdn] at hany

/-- C2 witness: the scenario acceptance satisfies upward consistency at a
concrete chosen cylinder, and the upward-violating fixture is rejected. -/
theorem claim_structural_gate_witness :
    (∀ c ∈ scObjsAt 0, scAsgn 0 c.containerId = true) ∧
    evaluate_solution vioH vioVal ["V|b|1"] [] = .ok (none, []) := by
  constructor
  · exact (claim_structural_gate.1 scH (scAsgn 0) scVars []
      (scIdsAt 0) (scObjsAt 0) [String.intercalate "," (scIdsAt 0)] (by decide)).1
  · exact claim_structural_gate.2 vioH vioVal ["V|b|1"] [] (by decide)
      (Or.inl ⟨"V|b|1", by decide, ⟨"V|b|1", 1, 1, 0, "V|b", "V"⟩,
        by decide, by decide, by decide, by decide⟩)

/-- C5: the final constraint list of a search run is the initial one plus
exactly one exclusion constraint per accepted solution — the sum of that
cylinder variables of that solution at most its count minus one — so the count of
appended constraints equals the count of accepted solutions, and a 0/1
assignment selecting the full cylinder set of an accepted solution violates
its exclusion constraint. -/
theorem claim_exclusion_append :
    (∀ (oracle : List Constraint → Option (String → Bool)) (h : Hierarchy)
       (vars : List String) (fuel : Nat) (status : Option (String → Bool))
       (counter : Nat) (cs : List Constraint) (seen : List String)
       (w : List (Nat × List String)) (csF : List Constraint),
       searchLoop oracle h vars fuel status counter cs seen = .ok (w, csF) →
       csF = cs ++ w.map (fun p => Constraint.leK (p.2.map (fun i => ((1 : ℚ), i)))
           (((p.2.length : ℤ) - 1 : ℤ) : ℚ)) ∧
         csF.length = cs.length + w.length) ∧
    (∀ (val : String → ℚ) (ids : List String),
       (∀ i ∈ ids, val i = 1) →
       ¬ satisfies val (Constraint.leK (ids.map (fun i => ((1 : ℚ), i)))
           (((ids.length : ℤ) - 1 : ℤ) : ℚ))) := by
  constructor
  · intro oracle h vars fuel status counter cs seen w csF hsl
    have hc := searchLoop_constraints hsl
    exact ⟨hc, by rw [hc]; simp⟩
  · intro val ids hall hsat
    simp only [satisfies, evalLin, List.map_map] at hsat
    have hsum : ∀ l : List String, (∀ i ∈ l, val i = 1) →
        ((l.map ((fun t : ℚ × String => t.1 * val t.2) ∘ fun i => ((1 : ℚ), i))).sum)
          = (l.length : ℚ) := by
      intro l
      induction l with
      | nil => intro _; simp
      | cons a t ih =>
        intro hl
        simp only [List.map_cons, List.sum_cons, Function.comp_apply,
          hl a (by simp), ih (fun i hi => hl i (by simp [hi])), List.length_cons]
        push_cast
        ring
    rw [hsum ids hall] at hsat
    have h2 : (ids.length : ℤ) ≤ (ids.length : ℤ) - 1 := by exact_mod_cast hsat
    omega

/-- C5 witness: the final constraints of the scenario run are its three exclusion
constraints, one per accepted solution, and an all-ones assignment violates
the first one. -/
theorem claim_exclusion_append_witness :
    (scExpectedCs = [] ++ scExpectedWritten.map
        (fun p => Constraint.leK (p.2.map (fun i => ((1 : ℚ), i)))
          (((p.2.length : ℤ) - 1 : ℤ) : ℚ)) ∧
      scExpectedCs.length = ([] : List Constraint).length + scExpectedWritten.length) ∧
    ¬ satisfies (fun _ => 1) (Constraint.leK ((scIdsAt 0).map (fun i => ((1 : ℚ), i)))
        ((((scIdsAt 0).length : ℤ) - 1 : ℤ) : ℚ)) := by
  constructor
  · exact claim_exclusion_append.1 scOracle scH scVars 3 (some (scAsgn 0)) 0 [] []
      scExpectedWritten scExpectedCs (by decide)
  · exact claim_exclusion_append.2 (fun _ => 1) (scIdsAt 0) (fun i _ => rfl)

/-- C6: a search run started with counter 0 under the guard
`counter <= maxSol` accepts at most `maxSol + 1` solutions (so it halts); in
the concrete scenario with cap 2 and an always-feasible oracle admitting five
distinct valid solutions, exactly three solutions are written. -/
theorem claim_search_cap :
    (∀ (oracle : List Constraint → Option (String → Bool)) (h : Hierarchy)
       (vars : List String) (maxSol : Nat) (status0 : Option (String → Bool))
       (cs0 : List Constraint) (seen0 : List String)
       (w : List (Nat × List String)) (csF : List Constraint),
       runSearch oracle h vars maxSol status0 cs0 seen0 = .ok (w, csF) →
       w.length ≤ maxSol + 1) ∧
    runSearch scOracle scH scVars 2 (some (scAsgn 0)) [] [] =
      .ok (scExpectedWritten, scExpectedCs) := by
  constructor
  · intro oracle h vars maxSol status0 cs0 seen0 w csF hrun
    exact searchLoop_length hrun
  · decide

/-- C6 witness: the three accepted solutions of the scenario run respect the
cap. -/
theorem claim_search_cap_witness : scExpectedWritten.length ≤ 2 + 1 :=
  claim_search_cap.1 scOracle scH scVars 2 (some (scAsgn 0)) [] []
    scExpectedWritten scExpectedCs claim_search_cap.2

/-- C7: a candidate whose ordered comma-joined identifier string is already
recorded is rejected; the duplicate set only grows; and the solutions a
search run accepts have pairwise distinct ordered identifier strings. -/
theorem claim_uniqueness :
    (∀ (h : Hierarchy) (val : String → Bool) (vars seen : List String) (st : ScanState),
       scanVariables h val vars initScan = .ok (some st) →
       solutionString st ∈ seen →
       evaluate_solution h val vars seen = .ok (none, seen)) ∧
    (∀ (h : Hierarchy) (val : String → Bool) (vars seen : List String)
       (p : Option (List String × List Cyl) × List String),
       evaluate_solution h val vars seen = .ok p → ∀ s ∈ seen, s ∈ p.2) ∧
    (∀ (oracle : List Constraint → Option (String → Bool)) (h : Hierarchy)
       (vars : List String) (fuel : Nat) (status : Option (String → Bool))
       (counter : Nat) (cs : List Constraint) (seen : List String)
       (w : List (Nat × List String)) (csF : List Constraint),
       searchLoop oracle h vars fuel status counter cs seen = .ok (w, csF) →
       (w.map (fun p => String.intercalate "," p.2)).Nodup) :=
  ⟨fun _ _ _ _ _ hs hd => evaluate_dup hs hd,
   fun _ _ _ _ _ he => evaluate_seen_mono he,
   fun _ _ _ _ _ _ _ _ _ _ hsl => (searchLoop_strings hsl).1⟩

/-- C7 witness: re-presenting the first accepted scenario solution is
rejected; a pre-recorded string survives a validation; and the
three accepted identifier strings are pairwise distinct. -/
theorem claim_uniqueness_witness :
    evaluate_solution scH (scAsgn 0) scVars [String.intercalate "," (scIdsAt 0)] =
      .ok (none, [String.intercalate "," (scIdsAt 0)]) ∧
    (∀ s ∈ (["x"] : List String), s ∈ (["x", String.intercalate "," ([] : List String)] :
      List String)) ∧
    (scExpectedWritten.map (fun p => String.intercalate "," p.2)).Nodup := by
  refine ⟨?_, ?_, ?_⟩
  · exact claim_uniqueness.1 scH (scAsgn 0) scVars [String.intercalate "," (scIdsAt 0)]
      (scSt 0) (by decide) (by decide)
  · exact claim_uniqueness.2.1 scH (scAsgn 0) [] ["x"]
      (none, ["x", String.intercalate "," ([] : List String)]) (by decide)
  · exact claim_uniqueness.2.2 scOracle scH scVars 3 (some (scAsgn 0)) 0 [] []
      scExpectedWritten scExpectedCs (by decide)

/-- C8: on well-formed names validation always returns a result instead of
raising; a success returns the ordered identifier list of exactly the
returned cylinder objects; and the search loop breaks on a rejected result
instead of retrying. -/
theorem claim_rejection_handling :
    (∀ (h : Hierarchy) (val : String → Bool) (vars seen : List String),
       wfNames h val vars → ∃ p, evaluate_solution h val vars seen = .ok p) ∧
    (∀ (h : Hierarchy) (val : String → Bool) (vars seen ids : List String)
       (objs : List Cyl) (s2 : List String),
       evaluate_solution h val vars seen = .ok (some (ids, objs), s2) →
       objs.map (·.identifier) = ids) ∧
    (∀ (oracle : List Constraint → Option (String → Bool)) (h : Hierarchy)
       (vars : List String) (fuel counter : Nat) (val : String → Bool)
       (cs : List Constraint) (seen s2 : List String),
       evaluate_solution h val vars seen = .ok (none, s2) →
       searchLoop oracle h vars (fuel + 1) (some val) counter cs seen =
         .ok ([], cs)) := by
  refine ⟨fun h val vars seen hwf => evaluate_no_error hwf, ?_, ?_⟩
  · intro h val vars seen ids objs s2 he
    obtain ⟨st, hscan, hids, hobjs, _, _, _⟩ := evaluate_accept_inv he
    rw [hids, hobjs]
    exact scanVariables_chosen_ids hscan rfl
  · intro oracle h vars fuel counter val cs seen s2 he
    simp [searchLoop, he]

/-- C8 witness: the scenario names are well-formed so validation returns; an
accepted pair is identifier-consistent; and a duplicate rejection makes the
loop stop with nothing written. -/
theorem claim_rejection_handling_witness :
    (∃ p, evaluate_solution scH (scAsgn 3) scVars [] = .ok p) ∧
    (scObjsAt 0).map (·.identifier) = scIdsAt 0 ∧
    searchLoop scOracle scH scVars 1 (some (scAsgn 0)) 0 []
      [String.intercalate "," (scIdsAt 0)] = .ok ([], []) := by
  refine ⟨?_, ?_, ?_⟩
  · exact claim_rejection_handling.1 scH (scAsgn 3) scVars [] (by decide)
  · exact claim_rejection_handling.2.1 scH (scAsgn 0) scVars [] (scIdsAt 0)
      (scObjsAt 0) [String.intercalate "," (scIdsAt 0)] (by decide)
  · exact claim_rejection_handling.2.2 scOracle scH scVars 0 0 (scAsgn 0) []
      [String.intercalate "," (scIdsAt 0)] [String.intercalate "," (scIdsAt 0)]
      (by decide)

/-- The new cylinder object a construction step attaches, and where it goes. -/
theorem processRow_boxCylinders (st : BuildState) (row : Row) :
    ∃ cyl : Cyl, cyl.identifier = cylIdOf row ∧ cyl.weight = row.weight ∧
      cyl.volume = row.volume ∧ cyl.boxId = boxIdOf row ∧
      (processRow st row).boxCylinders =
        (if boxIdOf row ∈ st.boxes.map (·.1)
         then appendAt st.boxCylinders (boxIdOf row) cyl
         else appendAt (st.boxCylinders ++ [(boxIdOf row, [])]) (boxIdOf row) cyl) := by
  by_cases hb : boxIdOf row ∈ st.boxes.map (·.1)
  · refine ⟨⟨cylIdOf row, row.weight, row.volume, row.density, boxIdOf row,
      (((st.boxes.find? (fun p => p.1 == boxIdOf row)).map (·.2)).getD row.container)⟩,
      rfl, rfl, rfl, rfl, ?_⟩
    rw [if_pos hb]
    simp only [processRow]
    by_cases hc : row.container ∈ st.containers <;> simp [hc, hb, contains_iff]
  · refine ⟨⟨cylIdOf row, row.weight, row.volume, row.density, boxIdOf row,
      ((((st.boxes ++ [(boxIdOf row, row.container)]).find?
        (fun p => p.1 == boxIdOf row)).map (·.2)).getD row.container)⟩,
      rfl, rfl, rfl, rfl, ?_⟩
    rw [if_neg hb]
    simp only [processRow]
    by_cases hc : row.container ∈ st.containers <;> simp [hc, hb, contains_iff]

/-- C9: construction is idempotent on container and box identifiers (a
re-encountered identifier reuses the existing entry), every row attaches
exactly one new cylinder object to the resolved box, and all three
dictionaries iterate in first-seen input order. -/
theorem claim_construction_idempotent :
    (∀ (st : BuildState) (row : Row), st.containers.contains row.container = true →
       (processRow st row).containers = st.containers) ∧
    (∀ (st : BuildState) (row : Row),
       (st.boxes.map (·.1)).contains (boxIdOf row) = true →
       (processRow st row).boxes = st.boxes ∧
       (processRow st row).boxCylinders.map (·.1) = st.boxCylinders.map (·.1)) ∧
    (∀ (st : BuildState) (row : Row), keysOk st →
       totalCyl (processRow st row) = totalCyl st + 1 ∧
       ∃ cyl : Cyl, cyl.identifier = cylIdOf row ∧ cyl.weight = row.weight ∧
         cyl.volume = row.volume ∧ cyl.boxId = boxIdOf row ∧
         lookupBC (processRow st row) (boxIdOf row) =
           some (((lookupBC st (boxIdOf row)).getD []) ++ [cyl])) ∧
    (∀ rows : List Row,
       (buildAll rows).containers = firstSeen (rows.map (·.container)) ∧
       (buildAll rows).boxes.map (·.1) = firstSeen (rows.map boxIdOf) ∧
       (buildAll rows).cylinders.map (·.1) = firstSeen (rows.map cylIdOf)) := by
  refine ⟨?_, ?_, ?_, ?_⟩
  · intro st row hc
    rw [processRow_containers, if_pos hc]
  · intro st row hb
    exact ⟨by rw [processRow_boxes, if_pos hb],
           by rw [processRow_boxCylKeys, if_pos hb]⟩
  · intro st row hkeys
    obtain ⟨cyl, hid, hwt, hvol, hbox, hbc⟩ := processRow_boxCylinders st row
    obtain ⟨hkeq, hnd⟩ := hkeys
    by_cases hb : boxIdOf row ∈ st.boxes.map (·.1)
    · rw [if_pos hb] at hbc
      have hbmem : boxIdOf row ∈ st.boxCylinders.map (·.1) := by rw [hkeq]; exact hb
      have hbnd : (st.boxCylinders.map (·.1)).Nodup := by rw [hkeq]; exact hnd
      obtain ⟨l, hf, ha⟩ := appendAt_find_mem (boxIdOf row) cyl _ hbmem
      refine ⟨?_, cyl, hid, hwt, hvol, hbox, ?_⟩
      · simp only [totalCyl, hbc]
        exact appendAt_total _ _ _ hbnd hbmem
      · have h1 : lookupBC st (boxIdOf row) = some l := by simp [lookupBC, hf]
        rw [h1]
        simp [lookupBC, hbc, ha]
    · rw [if_neg hb] at hbc
      have hbnm : boxIdOf row ∉ st.boxCylinders.map (·.1) := by rw [hkeq]; exact hb
      have happ : appendAt (st.boxCylinders ++ [(boxIdOf row, [])]) (boxIdOf row) cyl
          = st.boxCylinders ++ [(boxIdOf row, [cyl])] := by
        have hsplit : appendAt (st.boxCylinders ++ [(boxIdOf row, [])])
            (boxIdOf row) cyl
            = appendAt st.boxCylinders (boxIdOf row) cyl ++
              appendAt [(boxIdOf row, [])] (boxIdOf row) cyl := by
          simp [appendAt]
        rw [hsplit, appendAt_nomatch _ _ _ hbnm]
        simp [appendAt]
      have hnone : lookupBC st (boxIdOf row) = none := by
        simp [lookupBC, find_key_nomem _ _ hbnm]
      refine ⟨?_, cyl, hid, hwt, hvol, hbox, ?_⟩
      · simp only [totalCyl, hbc, happ]
        simp
      · rw [hnone]
        simp only [lookupBC, hbc, happ]
        rw [List.find?_append, find_key_nomem _ _ hbnm]
        simp
  · intro rows
    have haux := buildAll_orders_aux rows ⟨[], [], [], []⟩
    simpa [buildAll, firstSeen] using haux

/-- C9 witness: re-encountering container "A" and box "A|LB_1" reuses them,
the row attaches one new cylinder, and the four-row fixture iterates
first-seen. -/
theorem claim_construction_idempotent_witness :
    (processRow c9St c9Row).containers = c9St.containers ∧
    ((processRow c9St c9Row).boxes = c9St.boxes ∧
      (processRow c9St c9Row).boxCylinders.map (·.1) = c9St.boxCylinders.map (·.1)) ∧
    (totalCyl (processRow c9St c9Row) = totalCyl c9St + 1 ∧
      ∃ cyl : Cyl, cyl.identifier = cylIdOf c9Row ∧ cyl.weight = c9Row.weight ∧
        cyl.volume = c9Row.volume ∧ cyl.boxId = boxIdOf c9Row ∧
        lookupBC (processRow c9St c9Row) (boxIdOf c9Row) =
          some (((lookupBC c9St (boxIdOf c9Row)).getD []) ++ [cyl])) ∧
    ((buildAll c9Rows).containers = firstSeen (c9Rows.map (·.container)) ∧
      (buildAll c9Rows).boxes.map (·.1) = firstSeen (c9Rows.map boxIdOf) ∧
      (buildAll c9Rows).cylinders.map (·.1) = firstSeen (c9Rows.map cylIdOf)) :=
  ⟨claim_construction_idempotent.1 c9St c9Row (by decide),
   claim_construction_idempotent.2.1 c9St c9Row (by decide),
   claim_construction_idempotent.2.2.1 c9St c9Row (by decide),
   claim_construction_idempotent.2.2.2 c9Rows⟩

/-- C10: a fresh candidate rejected only by the numeric gate is still
recorded in the duplicate set, and presenting the identical assignment again
is rejected as a duplicate — with the set unchanged and regardless of the
numeric outcome. -/
theorem claim_reject_records_seen :
    ∀ (h : Hierarchy) (val : String → Bool) (vars seen : List String) (st : ScanState),
    scanVariables h val vars initScan = .ok (some st) →
    solutionString st ∉ seen →
    (¬ numericOk st →
      evaluate_solution h val vars seen = .ok (none, seen ++ [solutionString st])) ∧
    (∀ seen2 : List String, solutionString st ∈ seen2 →
      evaluate_solution h val vars seen2 = .ok (none, seen2)) := by
  intro h val vars seen st hscan hnew
  exact ⟨fun hnum => evaluate_numfail hscan hnew hnum,
         fun seen2 hdupe => evaluate_dup hscan hdupe⟩

/-- C10 witness: the empty scan is numerically rejected yet recorded, and its
re-presentation is rejected as a duplicate. -/
theorem claim_reject_records_seen_witness :
    evaluate_solution scH (scAsgn 1) [] [] =
      .ok (none, [] ++ [solutionString initScan]) ∧
    evaluate_solution scH (scAsgn 1) [] [solutionString initScan] =
      .ok (none, [solutionString initScan]) := by
  have h := claim_reject_records_seen scH (scAsgn 1) [] [] initScan (by decide) (by decide)
  exact ⟨h.1 (by decide), h.2 [solutionString initScan] (by decide)⟩

end Raizen
